import Mathlib

/-!
Verification development for bping (a concurrent ICMP reachability sweeper).

The embedding below translates the program's core into Lean:

* `ip_network` models Python's `ipaddress.ip_network(expr)` on IPv4 text
  (dotted quad, optional `/prefix`, strict host-bit check), returning
  `none` where Python raises `ValueError`.
* `IPNetwork.num_addresses` and `IPNetwork.hosts` model the library's
  `num_addresses` / `hosts()` (hosts excludes network and broadcast for
  prefixes up to /30; /31 and /32 enumerate every address).
* `ping` models the probe function: the subprocess interaction is
  abstracted as a `SubprocessOutcome` (the process completed with a
  return code, raised `TimeoutExpired`, or raised some other exception);
  `ping` maps every outcome to a `Bool`, mirroring the function's
  `try/except` structure, which catches every exception.
* `runLoop` / `runScan` / `ScanThread.run` model the GUI sweep thread.
  Addresses are the 32-bit numeric values (the program's `str(ip)`
  rendering is injective, so identity of addresses is preserved).
  Concurrency is abstracted by `order`, the sequence in which
  `as_completed` yields finished futures (constrained to a permutation
  of the host list in theorems), and by `running : Nat → Bool`, the
  value the loop observes for `self.is_running` at its k-th check
  (checks happen once before folding each result, and once after the
  loop for the final forced progress emit). Signal emissions become an
  explicit event list; wall-clock elapsed time is not modelled.
* `ScanThread.stop` models the `stop` method on the thread state, and
  `isRunningAfterStops` derives the observed flag trajectory from the
  set of times at which `stop` was called.
* `scan_network` models the batch/CLI sweep, which folds futures in
  submission order and propagates `ValueError` to its caller.
-/

/-- Shallow model of an IPv4 network as produced by `ipaddress.ip_network`:
the (aligned) 32-bit network address plus the prefix length. -/
structure IPNetwork where
  networkAddress : Nat
  prefixlen : Nat
  deriving DecidableEq

/-- Split a character list on a separator, like Python's `str.split(sep)`. -/
def splitOnChar (sep : Char) : List Char → List (List Char)
  | [] => [[]]
  | c :: rest =>
    let r := splitOnChar sep rest
    if c = sep then [] :: r
    else
      match r with
      | [] => [[c]]
      | h :: t => (c :: h) :: t

/-- Value of a digit string read in base 10. -/
def digitsToNat (l : List Char) : Nat :=
  l.foldl (fun a c => 10 * a + (c.toNat - 48)) 0

/-- One dotted-quad octet, with the `ipaddress` module's rules: non-empty,
at most 3 characters, digits only, no leading zero, value at most 255. -/
def parseOctet (l : List Char) : Option Nat :=
  if l = [] then none
  else if ¬ l.all Char.isDigit then none
  else if 3 < l.length then none
  else if l.head? = some '0' ∧ l ≠ ['0'] then none
  else
    let v := digitsToNat l
    if v ≤ 255 then some v else none

/-- A dotted-quad IPv4 address as its 32-bit numeric value. -/
def parseIPv4 (l : List Char) : Option Nat :=
  match splitOnChar '.' l with
  | [a, b, c, d] =>
    match parseOctet a, parseOctet b, parseOctet c, parseOctet d with
    | some x, some y, some z, some w => some (((x * 256 + y) * 256 + z) * 256 + w)
    | _, _, _, _ => none
  | _ => none

/-- The `/N` part of a network expression: digits only, value at most 32. -/
def parsePrefixLen (l : List Char) : Option Nat :=
  if l = [] then none
  else if ¬ l.all Char.isDigit then none
  else
    let v := digitsToNat l
    if v ≤ 32 then some v else none

/-- Model of `ipaddress.ip_network(expr)` (strict mode, IPv4): at most one
slash, a valid dotted quad, a valid prefix length, and no host bits set;
`none` where Python raises `ValueError`. A bare address gets prefix 32. -/
def ip_network (s : String) : Option IPNetwork :=
  match splitOnChar '/' s.toList with
  | [a] =>
    match parseIPv4 a with
    | some addr => some ⟨addr, 32⟩
    | none => none
  | [a, p] =>
    match parseIPv4 a, parsePrefixLen p with
    | some addr, some pl =>
      if addr % 2 ^ (32 - pl) = 0 then some ⟨addr, pl⟩ else none
    | _, _ => none
  | _ => none

/-- Model of `network.num_addresses`: every address in the block,
network and broadcast included. -/
def IPNetwork.num_addresses (nw : IPNetwork) : Nat := 2 ^ (32 - nw.prefixlen)

/-- Model of `network.hosts()`: ascending usable host addresses. For
prefixes up to /30 the network and broadcast addresses are excluded;
/31 yields both addresses and /32 the single address. -/
def IPNetwork.hosts (nw : IPNetwork) : List Nat :=
  if 31 ≤ nw.prefixlen then
    (List.range nw.num_addresses).map (fun i => nw.networkAddress + i)
  else
    (List.range (nw.num_addresses - 2)).map (fun i => nw.networkAddress + 1 + i)

/-- Outcome of the `subprocess.run(["ping", ...])` call inside `ping`:
the process finished with a return code, the one-second timeout expired,
or some other exception was raised (bad executable, malformed argument
handling, encoding error, ...). -/
inductive SubprocessOutcome where
  | completed (returncode : Int)
  | timeoutExpired
  | raised
  deriving DecidableEq

/-- Embedding of the program's `ping` function: returns `True` exactly
when the subprocess completes with return code 0; `TimeoutExpired` and
every other exception are caught and mapped to `False`. -/
def ping (outcome : SubprocessOutcome) : Bool :=
  match outcome with
  | SubprocessOutcome.completed rc => rc == 0
  | SubprocessOutcome.timeoutExpired => false
  | SubprocessOutcome.raised => false

/-- The three Qt signals the scan thread emits, as events:
`update_progress(processed, total)`, `update_ip_status(ip, is_active)` and
`scan_complete(active_ips)` (elapsed time dropped). -/
inductive ScanEvent where
  | progress (processed total : Nat)
  | result (ip : Nat) (isActive : Bool)
  | complete (activeIps : List Nat)
  deriving DecidableEq

/-- The result-folding loop of `ScanThread.run`: walk the futures in
completion order; before folding each result check `self.is_running`
(the check counter equals the number of results folded so far) and break
when it is false; otherwise append to `active_ips` when alive, emit the
`update_ip_status` signal, increment `processed_ips`, and emit the
`update_progress` signal. Returns `(active_ips, processed_ips, events)`. -/
def runLoop (alive : Nat → Bool) (total : Nat) (running : Nat → Bool) :
    List Nat → Nat → List Nat → List ScanEvent → List Nat × Nat × List ScanEvent
  | [], processed, activeIps, events => (activeIps, processed, events)
  | ip :: rest, processed, activeIps, events =>
    if running processed then
      runLoop alive total running rest (processed + 1)
        (if alive ip then activeIps ++ [ip] else activeIps)
        (events ++ [ScanEvent.result ip (alive ip),
                    ScanEvent.progress (processed + 1) total])
    else (activeIps, processed, events)

/-- Body of `ScanThread.run` after a successful `ip_network` parse:
run the folding loop with `total_ips = num_addresses`, then, if
`self.is_running` is still observed true, force a final
`update_progress(total, total)`, and emit `scan_complete(active_ips)`. -/
def runScan (nw : IPNetwork) (alive : Nat → Bool) (order : List Nat)
    (running : Nat → Bool) : List Nat × Nat × List ScanEvent :=
  let total := nw.num_addresses
  let r := runLoop alive total running order 0 [] []
  let events :=
    if running r.2.1 then r.2.2 ++ [ScanEvent.progress total total] else r.2.2
  (r.1, r.2.1, events ++ [ScanEvent.complete r.1])

/-- State of a `ScanThread` as set up by `__init__`. -/
structure ScanThread where
  network : String
  max_workers : Nat
  is_running : Bool
  deriving DecidableEq

/-- Embedding of `ScanThread.run`: parse `self.network`; a `ValueError`
is caught by the method's `try/except`, so a failed parse produces no
events and no state. `alive` gives the fixed probe outcome per address,
`order` the completion order of the futures, `running` the observed
`is_running` flag at each check. -/
def ScanThread.run (self : ScanThread) (alive : Nat → Bool) (order : List Nat)
    (running : Nat → Bool) : List Nat × Nat × List ScanEvent :=
  match ip_network self.network with
  | none => ([], 0, [])
  | some nw => runScan nw alive order running

/-- Embedding of `ScanThread.stop`: set `self.is_running = False`. -/
def ScanThread.stop (self : ScanThread) : ScanThread :=
  { self with is_running := false }

/-- Observed `is_running` trajectory when `stop` is called at the times
in `stops`: the flag reads true at check `t` exactly when every stop
call is still in the future. -/
def isRunningAfterStops (stops : List Nat) (t : Nat) : Bool :=
  stops.all (fun c => t < c)

/-- Flag trajectory of a single optional cancellation: with `some c` the
flag is first observed false at check `c`; with `none` it stays true. -/
def runningUntil : Option Nat → Nat → Bool
  | none, _ => true
  | some c, t => t < c

/-- Embedding of the batch `scan_network`: parse (a `ValueError`
propagates to the caller, modelled as `Except.error`), then fold the
futures in submission order, which collects exactly the alive hosts in
ascending host order. -/
def scan_network (expr : String) (alive : Nat → Bool) : Except String (List Nat) :=
  match ip_network expr with
  | none => Except.error "ValueError"
  | some nw => Except.ok (nw.hosts.filter alive)

/-- Number of loop iterations actually folded when the flag trajectory
is `runningUntil ca`, the counter starts at `p`, and `n` futures remain. -/
def effSteps : Option Nat → Nat → Nat → Nat
  | none, _, n => n
  | some c, p, n => min (c - p) n

/-- The event block the loop emits for the futures in `l`, starting from
processed counter `p`: for each result, the `update_ip_status` event and
then the `update_progress` event. -/
def pairEventsFrom (alive : Nat → Bool) (total : Nat) :
    List Nat → Nat → List ScanEvent
  | [], _ => []
  | ip :: rest, p =>
    ScanEvent.result ip (alive ip) ::
      ScanEvent.progress (p + 1) total :: pairEventsFrom alive total rest (p + 1)

/-- Addresses carried by the `result` events of an event list, in order. -/
def resultAddrs : List ScanEvent → List Nat
  | [] => []
  | ScanEvent.result ip _ :: rest => ip :: resultAddrs rest
  | _ :: rest => resultAddrs rest

/-- Whether an event is the `scan_complete` event. -/
def isCompleteEvent : ScanEvent → Bool
  | ScanEvent.complete _ => true
  | _ => false

/-- The concrete network 10.0.0.0/30, used for concrete runs. -/
def net30 : IPNetwork := ⟨167772160, 30⟩

/-! Structural lemmas about the folding loop. -/

lemma effSteps_nil (ca : Option Nat) (p : Nat) : effSteps ca p 0 = 0 := by
  cases ca <;> simp [effSteps]

lemma effSteps_cons_true (c p n : Nat) (h : p < c) :
    effSteps (some c) p (n + 1) = effSteps (some c) (p + 1) n + 1 := by
  simp only [effSteps]
  omega

/-- Characterization of `runLoop` under the single-cancellation flag
trajectory `runningUntil ca`: the loop folds exactly the first
`effSteps ca p n` futures, appending their alive addresses to the
accumulator and their result/progress event pairs to the event log. -/
lemma runLoop_eq (alive : Nat → Bool) (total : Nat) (ca : Option Nat) :
    ∀ (order : List Nat) (p : Nat) (acc : List Nat) (evs : List ScanEvent),
      runLoop alive total (runningUntil ca) order p acc evs =
        (acc ++ (order.take (effSteps ca p order.length)).filter alive,
         p + effSteps ca p order.length,
         evs ++ pairEventsFrom alive total
            (order.take (effSteps ca p order.length)) p) := by
  intro order
  induction order with
  | nil =>
    intro p acc evs
    simp [runLoop, effSteps_nil, pairEventsFrom]
  | cons ip rest ih =>
    intro p acc evs
    cases ca with
    | none =>
      rw [runLoop]
      simp only [runningUntil, if_true]
      rw [ih (p + 1)]
      simp only [effSteps, List.length_cons, List.take_cons, List.filter_cons]
      refine Prod.ext ?_ (Prod.ext ?_ ?_)
      · cases h : alive ip <;> simp [h, List.append_assoc]
      · simp
        omega
      · simp [pairEventsFrom, List.append_assoc]
    | some c =>
      rw [runLoop]
      by_cases h : p < c
      · have hr : runningUntil (some c) p = true := by
          simp [runningUntil, h]
        rw [hr]
        simp only [if_true]
        rw [ih (p + 1)]
        rw [List.length_cons, effSteps_cons_true c p rest.length h]
        simp only [List.take_succ_cons, List.filter_cons]
        refine Prod.ext ?_ (Prod.ext ?_ ?_)
        · cases ha : alive ip <;> simp [ha, List.append_assoc]
        · show p + 1 + effSteps (some c) (p + 1) rest.length =
            p + (effSteps (some c) (p + 1) rest.length + 1)
          omega
        · simp [pairEventsFrom, List.append_assoc]
      · have hr : runningUntil (some c) p = false := by
          simp [runningUntil, h]
        rw [hr]
        have h0 : effSteps (some c) p (rest.length + 1) = 0 := by
          simp only [effSteps]
          omega
        simp [h0, pairEventsFrom]

lemma take_min_length {α : Type} (c : Nat) (l : List α) :
    l.take (min c l.length) = l.take c := by
  rcases le_total c l.length with h | h
  · rw [min_eq_left h]
  · rw [min_eq_right h, List.take_length, List.take_of_length_le h]

/-- An uncancelled sweep folds every future in completion order: the live
list is the alive-filtered order, the processed counter is the number of
futures, and the events are the result/progress pairs, then the forced
final progress, then the completion event. -/
lemma runScan_none (nw : IPNetwork) (alive : Nat → Bool) (order : List Nat) :
    runScan nw alive order (runningUntil none) =
      (order.filter alive, order.length,
       pairEventsFrom alive nw.num_addresses order 0 ++
         [ScanEvent.progress nw.num_addresses nw.num_addresses,
          ScanEvent.complete (order.filter alive)]) := by
  simp only [runScan]
  rw [runLoop_eq]
  simp [effSteps, runningUntil, List.take_length, List.append_assoc]

/-- A sweep whose flag is first observed false at check `c` folds exactly
the first `c` futures: later results are dropped, the forced final
progress is emitted only when every future was folded before the flag
flipped, and the completion event still closes the stream. -/
lemma runScan_some (nw : IPNetwork) (alive : Nat → Bool) (order : List Nat)
    (c : Nat) :
    runScan nw alive order (runningUntil (some c)) =
      ((order.take c).filter alive, min c order.length,
       pairEventsFrom alive nw.num_addresses (order.take c) 0 ++
         (if order.length < c
          then [ScanEvent.progress nw.num_addresses nw.num_addresses]
          else []) ++
         [ScanEvent.complete ((order.take c).filter alive)]) := by
  simp only [runScan]
  rw [runLoop_eq]
  have heff : effSteps (some c) 0 order.length = min c order.length := by
    simp [effSteps]
  rw [heff, take_min_length]
  have hrun : runningUntil (some c) (0 + min c order.length) =
      decide (order.length < c) := by
    simp only [runningUntil, Nat.zero_add]
    by_cases h : order.length < c
    · simp [h]
    · simp [h]
  rw [hrun]
  by_cases h : order.length < c <;> simp [h, List.append_assoc]

lemma resultAddrs_append (a b : List ScanEvent) :
    resultAddrs (a ++ b) = resultAddrs a ++ resultAddrs b := by
  induction a with
  | nil => simp [resultAddrs]
  | cons e rest ih =>
    cases e <;> simp [resultAddrs, ih]

lemma resultAddrs_pairEventsFrom (alive : Nat → Bool) (total : Nat) :
    ∀ (l : List Nat) (p : Nat), resultAddrs (pairEventsFrom alive total l p) = l := by
  intro l
  induction l with
  | nil => intro p; simp [pairEventsFrom, resultAddrs]
  | cons ip rest ih => intro p; simp [pairEventsFrom, resultAddrs, ih]

lemma completeCount_pairEventsFrom (alive : Nat → Bool) (total : Nat) :
    ∀ (l : List Nat) (p : Nat),
      (pairEventsFrom alive total l p).countP isCompleteEvent = 0 := by
  intro l
  induction l with
  | nil => intro p; simp [pairEventsFrom]
  | cons ip rest ih =>
    intro p
    simp [pairEventsFrom, List.countP_cons, isCompleteEvent, ih]

lemma getLast?_append_singleton {α : Type} (l : List α) (a : α) :
    (l ++ [a]).getLast? = some a := by
  rw [List.getLast?_append_cons]
  rfl

/-- The host list of any network has no duplicate addresses. -/
lemma hosts_nodup (nw : IPNetwork) : nw.hosts.Nodup := by
  unfold IPNetwork.hosts
  by_cases h : 31 ≤ nw.prefixlen <;>
    simp [h] <;>
    exact (List.nodup_range _).map (fun a b hab => by omega)

/-- A network never has more usable hosts than total addresses. -/
lemma hosts_length_le (nw : IPNetwork) :
    nw.hosts.length ≤ nw.num_addresses := by
  unfold IPNetwork.hosts
  by_cases h : 31 ≤ nw.prefixlen <;> simp [h]

lemma countP_complete_runScan_events (nw : IPNetwork) (alive : Nat → Bool)
    (order : List Nat) (ca : Option Nat) :
    ((runScan nw alive order (runningUntil ca)).2.2).countP isCompleteEvent = 1 := by
  cases ca with
  | none =>
    rw [runScan_none]
    simp [List.countP_append, List.countP_cons, isCompleteEvent,
      completeCount_pairEventsFrom]
  | some c =>
    rw [runScan_some]
    by_cases h : order.length < c <;>
      simp [h, List.countP_append, List.countP_cons, isCompleteEvent,
        completeCount_pairEventsFrom]

/-- C7: every sweep emits exactly one completion event, and that event,
carrying the aggregate live list, is the last event of the sweep — both
when it runs to normal completion (`ca = none`) and when it is cancelled
part-way (`ca = some c`, the flag first observed false at check `c`). -/
theorem scan_exactly_one_complete_and_last (nw : IPNetwork) (alive : Nat → Bool)
    (order : List Nat) (ca : Option Nat) :
    ((runScan nw alive order (runningUntil ca)).2.2).countP isCompleteEvent = 1 ∧
    ((runScan nw alive order (runningUntil ca)).2.2).getLast? =
      some (ScanEvent.complete (runScan nw alive order (runningUntil ca)).1) := by
  refine ⟨countP_complete_runScan_events nw alive order ca, ?_⟩
  cases ca with
  | none =>
    rw [runScan_none]
    dsimp only
    rw [List.getLast?_append_cons]
    rfl
  | some c =>
    rw [runScan_some]
    dsimp only
    rw [getLast?_append_singleton]

/-- C5 counterexample: in the code every exception raised inside `ping`
— including the one a malformed address argument would produce — is
caught by the catch-all `except Exception` and normalized to `False`,
exactly like a timeout; no distinct error ever reaches the caller. -/
theorem ping_malformed_normalized_counterexample :
    ping SubprocessOutcome.raised = false ∧
    ping SubprocessOutcome.timeoutExpired = false ∧
    ping (SubprocessOutcome.completed 2) = false := by
  decide

/-- C5 (amended): `ping` never raises for any input: it is a total
boolean function of the subprocess outcome, returning `true` exactly
when the process completed with return code 0; timeouts, nonzero exit
codes (as a malformed or unknown address produces) and every other
exception are all normalized to `alive = false`. -/
theorem ping_total_and_normalizing (o : SubprocessOutcome) :
    ping o = true ↔ o = SubprocessOutcome.completed 0 := by
  cases o with
  | completed rc => simp [ping]
  | timeoutExpired => simp [ping]
  | raised => simp [ping]

set_option maxRecDepth 4096 in
/-- C2 evaluation at the failing input `10.0.0.0/30`: the sweep's
`total_ips` comes from `network.num_addresses`, which is 4, while the
enumerated usable hosts are exactly the 2 addresses `10.0.0.1` and
`10.0.0.2` in ascending order — so the count the sweep uses is not the
usable-host count the spec states (2 for a /30, 254 for a /24). -/
theorem total_is_num_addresses_not_host_count :
    ip_network "10.0.0.0/30" = some net30 ∧
    net30.num_addresses = 4 ∧
    net30.hosts.length = 2 ∧
    net30.hosts = [167772161, 167772162] ∧
    (⟨3232235776, 24⟩ : IPNetwork).num_addresses = 256 ∧
    (⟨3232235776, 24⟩ : IPNetwork).hosts.length = 254 := by
  decide

/-- C6: starting a sweep with the syntactically malformed range
expression `"not-an-ip"` fails at `ip_network` before any dispatch: the
GUI thread emits no event at all (its `try/except` swallows the
`ValueError` before any probe, progress or result), and the batch
`scan_network` surfaces the error to its caller without performing work. -/
theorem invalid_range_fails_before_any_event (self : ScanThread)
    (alive : Nat → Bool) (order : List Nat) (running : Nat → Bool)
    (h : self.network = "not-an-ip") :
    ip_network "not-an-ip" = none ∧
    ScanThread.run self alive order running = ([], 0, []) ∧
    scan_network "not-an-ip" alive = Except.error "ValueError" := by
  have hp : ip_network "not-an-ip" = none := by decide
  refine ⟨hp, ?_, ?_⟩
  · rw [ScanThread.run, h, hp]
  · rw [scan_network, hp]

/-- C6 witness: the theorem applied to a thread constructed on the
malformed expression. -/
theorem invalid_range_fails_before_any_event_witness :
    ip_network "not-an-ip" = none ∧
    ScanThread.run ⟨"not-an-ip", 50, true⟩ (fun _ => true) [] (fun _ => true) =
      ([], 0, []) ∧
    scan_network "not-an-ip" (fun _ => true) = Except.error "ValueError" :=
  invalid_range_fails_before_any_event ⟨"not-an-ip", 50, true⟩
    (fun _ => true) [] (fun _ => true) rfl

/-- C1 counterexample: on the uncancelled sweep of `10.0.0.0/30` the
processed counter ends at 2 — the number of usable hosts — while the
`total` the sweep uses (`network.num_addresses`) is 4, so the processed
count does not reach the total address count. -/
theorem processed_misses_total_counterexample :
    (runScan net30 (fun _ => false) net30.hosts (runningUntil none)).2.1 = 2 ∧
    net30.num_addresses = 4 := by
  decide

/-- C1 (amended): for every uncancelled sweep over a valid range, the
processed counter reaches the host-address count (which is two less than
the `num_addresses` total the code reports for prefixes up to /30), and
every host address yields exactly one result event: the list of
result-event addresses is a permutation of the host list, so its set
equals the full host-address set of the range. -/
theorem uncancelled_results_cover_hosts (nw : IPNetwork) (alive : Nat → Bool)
    (order : List Nat) (hperm : order.Perm nw.hosts) :
    (runScan nw alive order (runningUntil none)).2.1 = nw.hosts.length ∧
    (resultAddrs (runScan nw alive order (runningUntil none)).2.2).Perm nw.hosts ∧
    (∀ x, x ∈ resultAddrs (runScan nw alive order (runningUntil none)).2.2 ↔
      x ∈ nw.hosts) := by
  rw [runScan_none]
  dsimp only
  have hres : resultAddrs (pairEventsFrom alive nw.num_addresses order 0 ++
      [ScanEvent.progress nw.num_addresses nw.num_addresses,
       ScanEvent.complete (order.filter alive)]) = order := by
    rw [resultAddrs_append, resultAddrs_pairEventsFrom]
    simp [resultAddrs]
  rw [hres]
  exact ⟨hperm.length_eq, hperm, fun x => hperm.mem_iff⟩

/-- C1 witness: the amended theorem applied to the sweep of
`10.0.0.0/30` in ascending completion order with every host alive. -/
theorem uncancelled_results_cover_hosts_witness :
    (runScan net30 (fun _ => true) net30.hosts (runningUntil none)).2.1 =
      net30.hosts.length ∧
    (resultAddrs (runScan net30 (fun _ => true) net30.hosts
      (runningUntil none)).2.2).Perm net30.hosts ∧
    (∀ x, x ∈ resultAddrs (runScan net30 (fun _ => true) net30.hosts
      (runningUntil none)).2.2 ↔ x ∈ net30.hosts) :=
  uncancelled_results_cover_hosts net30 (fun _ => true) net30.hosts
    (List.Perm.refl _)

/-- C3 counterexample: sweep of `10.0.0.0/30`, both hosts alive, every
probe submitted up-front; the flag is observed false at check 1, so the
loop breaks: the already-issued probe of `10.0.0.2` completes but its
result is dropped — processed stays 1 and the live list misses the
second host, contradicting the claim that results of already-issued
probes are still folded into the sweep state. -/
theorem cancelled_inflight_dropped_counterexample :
    (runScan net30 (fun _ => true) net30.hosts (runningUntil (some 1))).1 =
      [167772161] ∧
    (runScan net30 (fun _ => true) net30.hosts (runningUntil (some 1))).2.1 = 1 ∧
    net30.hosts = [167772161, 167772162] := by
  decide

/-- C3 (amended): once the cancellation flag is observed (first false at
check `c`), the result loop stops folding entirely: exactly the first
`c` completed results are counted, those and only those addresses get
result events, alive ones among them are in the live list, and the
results of probes still in flight are discarded rather than folded;
results folded before cancellation are retained. -/
theorem cancel_stops_folding (nw : IPNetwork) (alive : Nat → Bool)
    (order : List Nat) (c : Nat) :
    (runScan nw alive order (runningUntil (some c))).1 =
      (order.take c).filter alive ∧
    (runScan nw alive order (runningUntil (some c))).2.1 =
      (order.take c).length ∧
    resultAddrs (runScan nw alive order (runningUntil (some c))).2.2 =
      order.take c := by
  rw [runScan_some]
  dsimp only
  refine ⟨rfl, ?_, ?_⟩
  · rw [List.length_take]
  · rw [resultAddrs_append, resultAddrs_append, resultAddrs_pairEventsFrom]
    by_cases h : order.length < c <;> simp [h, resultAddrs]

/-- C4 counterexample: the first two events of the concrete uncancelled
sweep of `10.0.0.0/30` are the result event for `10.0.0.1` and then its
progress event — the code emits `update_ip_status` before
`update_progress`, not progress first as claimed. -/
theorem progress_after_result_counterexample :
    (runScan net30 (fun _ => false) net30.hosts (runningUntil none)).2.2 =
      [ScanEvent.result 167772161 false, ScanEvent.progress 1 4,
       ScanEvent.result 167772162 false, ScanEvent.progress 2 4,
       ScanEvent.progress 4 4, ScanEvent.complete []] := by
  decide

/-- C4 (amended): for every completed probe that is folded, the engine
emits the per-address result event `(address, alive)` first and then the
progress event `(processed, total)`, in that order, for every folded
result including the final one: `pairEventsFrom` is by definition this
result-then-progress pairing, and the sweep's stream is exactly these
pairs followed by the tail events, both uncancelled and cancelled. -/
theorem result_then_progress_per_probe (nw : IPNetwork) (alive : Nat → Bool)
    (order : List Nat) :
    ((runScan nw alive order (runningUntil none)).2.2 =
      pairEventsFrom alive nw.num_addresses order 0 ++
        [ScanEvent.progress nw.num_addresses nw.num_addresses,
         ScanEvent.complete (order.filter alive)]) ∧
    ∀ c, (runScan nw alive order (runningUntil (some c))).2.2 =
      pairEventsFrom alive nw.num_addresses (order.take c) 0 ++
        (if order.length < c
         then [ScanEvent.progress nw.num_addresses nw.num_addresses]
         else []) ++
        [ScanEvent.complete ((order.take c).filter alive)] := by
  constructor
  · rw [runScan_none]
  · intro c
    rw [runScan_some]

/-- C8: for every valid network expression and every fixed prober
outcome, the GUI sweep (`ScanThread.run`, any completion order,
uncancelled) and the batch sweep (`scan_network`) compute the same set
of live addresses: the batch result is the alive-filtered host list and
the GUI live list has exactly the same members. -/
theorem gui_batch_same_live_set (self : ScanThread) (nw : IPNetwork)
    (alive : Nat → Bool) (order : List Nat)
    (hn : ip_network self.network = some nw) (hperm : order.Perm nw.hosts) :
    scan_network self.network alive = Except.ok (nw.hosts.filter alive) ∧
    ∀ x, x ∈ (ScanThread.run self alive order (runningUntil none)).1 ↔
      x ∈ nw.hosts.filter alive := by
  have hrun : ScanThread.run self alive order (runningUntil none) =
      runScan nw alive order (runningUntil none) := by
    unfold ScanThread.run
    rw [hn]
  constructor
  · rw [scan_network, hn]
  · intro x
    rw [hrun, runScan_none]
    dsimp only
    exact (hperm.filter alive).mem_iff

/-- C8 witness: the equivalence at the concrete sweep of `10.0.0.0/30`
with the even addresses alive. -/
theorem gui_batch_same_live_set_witness :
    scan_network "10.0.0.0/30" (fun x => x % 2 == 0) =
      Except.ok (net30.hosts.filter (fun x => x % 2 == 0)) ∧
    ∀ x, x ∈ (ScanThread.run ⟨"10.0.0.0/30", 50, true⟩ (fun x => x % 2 == 0)
        net30.hosts (runningUntil none)).1 ↔
      x ∈ net30.hosts.filter (fun x => x % 2 == 0) :=
  gui_batch_same_live_set ⟨"10.0.0.0/30", 50, true⟩ net30 (fun x => x % 2 == 0)
    net30.hosts (by decide) (List.Perm.refl _)

/-- C9: cancelling a running sweep multiple times has the same effect as
cancelling it once: `stop` is idempotent on the thread state, a second
`stop` at any later time leaves the observed flag trajectory unchanged,
and therefore the sweep's entire state, live list and event stream are
identical. -/
theorem cancel_idempotent (s : ScanThread) (t1 t2 : Nat) (h : t1 ≤ t2)
    (nw : IPNetwork) (alive : Nat → Bool) (order : List Nat) :
    ScanThread.stop (ScanThread.stop s) = ScanThread.stop s ∧
    isRunningAfterStops [t1, t2] = isRunningAfterStops [t1] ∧
    runScan nw alive order (isRunningAfterStops [t1, t2]) =
      runScan nw alive order (isRunningAfterStops [t1]) := by
  have htraj : isRunningAfterStops [t1, t2] = isRunningAfterStops [t1] := by
    funext t
    simp only [isRunningAfterStops, List.all_cons, List.all_nil, Bool.and_true]
    by_cases hh : t < t1
    · have h2 : t < t2 := lt_of_lt_of_le hh h
      simp [hh, h2]
    · simp [hh]
  exact ⟨rfl, htraj, by rw [htraj]⟩

/-- C9 witness: the theorem at a concrete thread and sweep, with the
first `stop` observed at check 1 and the second at check 3. -/
theorem cancel_idempotent_witness :
    ScanThread.stop (ScanThread.stop ⟨"192.168.1.0/24", 50, true⟩) =
      ScanThread.stop ⟨"192.168.1.0/24", 50, true⟩ ∧
    isRunningAfterStops [1, 3] = isRunningAfterStops [1] ∧
    runScan net30 (fun _ => true) net30.hosts (isRunningAfterStops [1, 3]) =
      runScan net30 (fun _ => true) net30.hosts (isRunningAfterStops [1]) :=
  cancel_idempotent ⟨"192.168.1.0/24", 50, true⟩ 1 3 (by decide) net30
    (fun _ => true) net30.hosts

/-- C10: for every sweep, cancelled (`some c`) or not (`none`), the live
list's length never exceeds the total address count, the list contains
no address twice, and every entry is a host address of the original
range. -/
theorem live_list_bounded_nodup_from_range (nw : IPNetwork)
    (alive : Nat → Bool) (order : List Nat) (ca : Option Nat)
    (hperm : order.Perm nw.hosts) :
    (runScan nw alive order (runningUntil ca)).1.length ≤ nw.num_addresses ∧
    (runScan nw alive order (runningUntil ca)).1.Nodup ∧
    ∀ x ∈ (runScan nw alive order (runningUntil ca)).1, x ∈ nw.hosts := by
  have hsub : (runScan nw alive order (runningUntil ca)).1.Sublist order := by
    cases ca with
    | none =>
      rw [runScan_none]
      exact List.filter_sublist _
    | some c =>
      rw [runScan_some]
      exact (List.filter_sublist _).trans (List.take_sublist c order)
  have hnd : order.Nodup := hperm.nodup_iff.mpr (hosts_nodup nw)
  refine ⟨?_, hnd.sublist hsub, fun x hx => hperm.mem_iff.mp (hsub.subset hx)⟩
  calc (runScan nw alive order (runningUntil ca)).1.length
      ≤ order.length := hsub.length_le
    _ = nw.hosts.length := hperm.length_eq
    _ ≤ nw.num_addresses := hosts_length_le nw

/-- C10 witness: the invariant at the concrete cancelled sweep of
`10.0.0.0/30` with every host alive. -/
theorem live_list_bounded_nodup_from_range_witness :
    (runScan net30 (fun _ => true) net30.hosts (runningUntil (some 1))).1.length ≤
      net30.num_addresses ∧
    (runScan net30 (fun _ => true) net30.hosts (runningUntil (some 1))).1.Nodup ∧
    ∀ x ∈ (runScan net30 (fun _ => true) net30.hosts
      (runningUntil (some 1))).1, x ∈ net30.hosts :=
  live_list_bounded_nodup_from_range net30 (fun _ => true) net30.hosts (some 1)
    (List.Perm.refl _)
